import Mathlib

/-!
Verification of the FROST distributed key generation core
(src/crypto/frost/src/key_gen.rs) against its natural-language specification.

The Rust code is shallowly embedded: the scalar field `F` and the group `G` are
abstract types with a `Module F G` action, byte strings are `List Nat`, the
fallible curve codecs return `Option`, and a Rust panic (slice out of bounds,
`unwrap` of `None`) is modelled by the `RunError.panic` value of an `Except`.
`HashMap`s are modelled as association lists; iteration order is the canonical
ascending key order `1..=n` that the validated maps carry.
-/

set_option autoImplicit false
set_option linter.unusedSectionVars false

namespace Serai

instance exceptDecEq {ε α : Type} [DecidableEq ε] [DecidableEq α] :
    DecidableEq (Except ε α)
  | .error a, .error b =>
    if h : a = b then .isTrue (by rw [h])
    else .isFalse (by intro hh; cases hh; exact h rfl)
  | .error _, .ok _ => .isFalse (by intro h; cases h)
  | .ok _, .error _ => .isFalse (by intro h; cases h)
  | .ok a, .ok b =>
    if h : a = b then .isTrue (by rw [h])
    else .isFalse (by intro hh; cases hh; exact h rfl)

/-- Byte strings of the wire format; each entry stands for one byte. -/
abbrev Bytes := List Nat

/-- State of a key generation machine (`enum State` in key_gen.rs). -/
inductive State where
  | Fresh
  | GeneratedCoefficients
  | GeneratedSecretShares
  | Complete
  deriving DecidableEq, Repr

/-- The `FrostError` variants reached from key_gen.rs. The enum itself is
declared outside the excerpted sources; the variants and their meaning are
taken from the spec's error catalogue (§7). -/
inductive FrostError where
  | InternalError : String → FrostError
  | InvalidKeyGenTransition : State → State → FrostError
  | InvalidCommitment : Nat → FrostError
  | InvalidProofOfKnowledge : Nat → FrostError
  | InvalidShare : Nat → FrostError
  | MissingParticipant : Nat → FrostError
  | DuplicatedIndex : Nat → FrostError
  deriving DecidableEq, Repr

/-- Outcome of running a fallible piece of Rust: either a process-aborting
panic (out-of-bounds slice, `unwrap` on `None`) or a returned `FrostError`. -/
inductive RunError where
  | panic : RunError
  | err : FrostError → RunError
  deriving DecidableEq, Repr

/-- `MultisigParams { n, t, i }`: participant count, threshold, local 1-based
index. The constructor validating them is outside the excerpted sources; the
spec (§2, §3) requires `1 ≤ t ≤ n` and `1 ≤ i ≤ n`, with `u16` fields. -/
structure MultisigParams where
  n : Nat
  t : Nat
  i : Nat
  deriving DecidableEq, Repr

/-- The invariants `MultisigParams` carries at every observable boundary
(spec §3), together with the `u16` range of the fields. -/
def MultisigParams.valid (p : MultisigParams) : Prop :=
  1 ≤ p.t ∧ p.t ≤ p.n ∧ 1 ≤ p.i ∧ p.i ≤ p.n ∧ p.n < 65536

instance (p : MultisigParams) : Decidable p.valid := by
  unfold MultisigParams.valid; infer_instance

/-- The capability bundle a concrete curve provides (spec §4.1): generator,
fixed byte lengths, codecs, the random oracle and multi-exponentiation.
`generator_table() * s` of the source is modelled as `s • gen`, which the spec
requires it to equal. -/
structure CurveOps (F G : Type) where
  gen : G
  F_len : Nat
  G_len : Nat
  F_to_bytes : F → Bytes
  F_from_slice : Bytes → Option F
  G_to_bytes : G → Bytes
  G_from_slice : Bytes → Option G
  hash_to_F : Bytes → F
  multiexp : List F → List G → G

/-- Well-behavedness of a curve's codecs (spec §4.1: fixed-length, canonical
encodings). -/
structure CurveValid {F G : Type} (C : CurveOps F G) : Prop where
  F_to_len : ∀ x, (C.F_to_bytes x).length = C.F_len
  G_to_len : ∀ x, (C.G_to_bytes x).length = C.G_len
  F_round : ∀ x, C.F_from_slice (C.F_to_bytes x) = some x
  G_round : ∀ x, C.G_from_slice (C.G_to_bytes x) = some x

section KeyGen

variable {F G : Type} [CommRing F] [AddCommGroup G] [Module F G]

/-- First lookup of a key in an association list (`HashMap` indexing). -/
def mlookup {α : Type} : List (Nat × α) → Nat → Option α
  | [], _ => none
  | p :: ps, k => if p.1 = k then some p.2 else mlookup ps k

/-- `u16::to_be_bytes`: the index encoded big-endian as 2 bytes. -/
def u16_be (n : Nat) : Bytes := [n / 256 % 256, n % 256]

/-- `challenge` (key_gen.rs lines 11-21): the Schnorr challenge is the hash of
`i_be || context || R || Am`. -/
def challenge {F G : Type} (C : CurveOps F G) (l : Nat) (context : Bytes)
    (Rb : Bytes) (Am : Bytes) : F :=
  C.hash_to_F (u16_be l ++ context ++ Rb ++ Am)

/-- The loop body of `polynomial` (key_gen.rs lines 155-168): iterate over the
reversed coefficients; always add, and multiply by `l` except on the last
iteration. -/
def polyGo (l : F) : F → List F → F
  | share, [] => share
  | share, c :: cs => if cs.isEmpty then share + c else polyGo l ((share + c) * l) cs

/-- `polynomial` (key_gen.rs lines 155-168): evaluate the committed polynomial
at participant index `l` by right-to-left Horner accumulation. -/
def polynomial (coefficients : List F) (l : Nat) : F :=
  polyGo (l : F) 0 coefficients.reverse

/-- `Modelled from the spec:` the `validate_map` helper lives in
crypto/frost/src/lib.rs, which is not among the excerpted sources. Per spec
§4.3/§5/§7 it inserts the local entry `ours` into the supplied map and then
demands that the keys cover `included` exactly once, failing with
`MissingParticipant(l)` / `DuplicatedIndex(l)` otherwise. On success the
entries are returned in the canonical `included` order. -/
def validate_map {α : Type} (m : List (Nat × α)) (included : List Nat)
    (ours : Nat × α) : Except FrostError (List (Nat × α)) :=
  let m2 := ours :: m.filter (fun p => p.1 ≠ ours.1)
  let keys := m2.map Prod.fst
  match included.find? (fun l => (mlookup m2 l).isNone) with
  | some l => .error (FrostError.MissingParticipant l)
  | none =>
    match keys.find? (fun k => decide (1 < keys.count k) || decide (¬ k ∈ included)) with
    | some k => .error (FrostError.DuplicatedIndex k)
    | none => .ok (included.filterMap (fun l => (mlookup m2 l).map (fun v => (l, v))))

end KeyGen

section Poly

variable {F : Type} [CommRing F]

lemma polyGo_spec (l : F) :
    ∀ (ys : List F) (share : F), ys ≠ [] →
      polyGo l share ys = share * l ^ (ys.length - 1) +
        ∑ k ∈ Finset.range ys.length, ys.getD k 0 * l ^ (ys.length - 1 - k) := by
  intro ys
  induction ys with
  | nil => intro share h; exact absurd rfl h
  | cons c cs ih =>
    intro share _
    cases cs with
    | nil => simp [polyGo]
    | cons d ds =>
      have hne : d :: ds ≠ [] := by simp
      have hpow : l ^ ((d :: ds).length - 1) * l = l ^ (d :: ds).length := by
        rw [← pow_succ]
        simp
      rw [polyGo, if_neg (by simp), ih ((share + c) * l) hne]
      have hsum :
          ∑ k ∈ Finset.range (c :: d :: ds).length,
              (c :: d :: ds).getD k 0 * l ^ ((c :: d :: ds).length - 1 - k) =
            (∑ k ∈ Finset.range (d :: ds).length,
              (d :: ds).getD k 0 * l ^ ((d :: ds).length - 1 - k)) +
            c * l ^ (d :: ds).length := by
        rw [show (c :: d :: ds).length = (d :: ds).length + 1 from rfl,
          Finset.sum_range_succ']
        have h1 : ∑ k ∈ Finset.range (d :: ds).length,
              (c :: d :: ds).getD (k + 1) 0 * l ^ ((d :: ds).length + 1 - 1 - (k + 1)) =
            ∑ k ∈ Finset.range (d :: ds).length,
              (d :: ds).getD k 0 * l ^ ((d :: ds).length - 1 - k) :=
          Finset.sum_congr rfl (fun k hk => by
            have hx : (d :: ds).length + 1 - 1 - (k + 1) =
                (d :: ds).length - 1 - k := by omega
            simp only [List.getD_cons_succ, hx])
        rw [h1]
        simp
      rw [hsum]
      rw [show (c :: d :: ds).length - 1 = (d :: ds).length from by simp]
      rw [mul_assoc, mul_comm l (l ^ ((d :: ds).length - 1)), hpow]
      ring

lemma getD_reverse (xs : List F) (k : Nat) (hk : k < xs.length) :
    xs.reverse.getD k 0 = xs.getD (xs.length - 1 - k) 0 := by
  have h1 : k < xs.reverse.length := by simpa using hk
  have h2 : xs.length - 1 - k < xs.length := by omega
  rw [List.getD_eq_getElem _ _ h1, List.getD_eq_getElem _ _ h2]
  rw [List.getElem_reverse]

/-- Claim C9: for every non-empty coefficient list and every index `l`, the
right-to-left Horner accumulation of `polynomial` returns exactly
`f(l) = Σ_{j=0..t-1} a_j · l^j` in the scalar field. -/
theorem C9_polynomial_eval (coefficients : List F) (l : Nat)
    (h : coefficients ≠ []) :
    polynomial coefficients l =
      ∑ j ∈ Finset.range coefficients.length,
        coefficients.getD j 0 * (l : F) ^ j := by
  have hrev : coefficients.reverse ≠ [] := by
    simpa using h
  unfold polynomial
  rw [polyGo_spec _ _ _ hrev, zero_mul, zero_add]
  rw [List.length_reverse]
  have hstep :
      ∀ k ∈ Finset.range coefficients.length,
        coefficients.reverse.getD k 0 * (l : F) ^ (coefficients.length - 1 - k) =
          coefficients.getD (coefficients.length - 1 - k) 0 *
            (l : F) ^ (coefficients.length - 1 - k) := by
    intro k hk
    rw [getD_reverse _ _ (Finset.mem_range.mp hk)]
  rw [Finset.sum_congr rfl hstep]
  exact Finset.sum_range_reflect (fun j => coefficients.getD j 0 * (l : F) ^ j)
    coefficients.length

/-- Witness for C9 at a concrete input. -/
theorem C9_polynomial_eval_witness :
    polynomial ([2, 3] : List (ZMod 5)) 3 =
      ∑ j ∈ Finset.range ([2, 3] : List (ZMod 5)).length,
        ([2, 3] : List (ZMod 5)).getD j 0 * ((3 : Nat) : ZMod 5) ^ j :=
  C9_polynomial_eval [2, 3] 3 (by decide)

end Poly

section Round1

variable {F G : Type} [CommRing F] [AddCommGroup G] [Module F G]

/-- `generate_key_r1` (key_gen.rs lines 25-60): draw the `t` polynomial
coefficients and the PoK nonce from the RNG stream (draws `0..t-1` are the
coefficients, draw `t` is the nonce), commit to each, and serialize
`A_0 || … || A_{t-1} || R || s`. -/
def generate_key_r1 (C : CurveOps F G) (rng : Nat → F) (params : MultisigParams)
    (context : Bytes) : List F × Bytes :=
  let t := params.t
  let coefficients := (List.range t).map rng
  let commitments := coefficients.map (fun a => a • C.gen)
  let serialized := (commitments.map C.G_to_bytes).flatten
  let r := rng t
  let R := r • C.gen
  let s := r + coefficients.getD 0 0 *
    challenge C params.i context (C.G_to_bytes R) serialized
  (coefficients, serialized ++ C.G_to_bytes R ++ C.F_to_bytes s)

lemma map_rng_getD_zero (rng : Nat → F) (t : Nat) (ht : 0 < t) :
    ((List.range t).map rng).getD 0 0 = rng 0 := by
  cases t with
  | zero => omega
  | succ n => rw [List.range_succ_eq_map]; rfl

lemma flatten_map_length {α : Type} (f : α → Bytes) (c : Nat)
    (hf : ∀ x, (f x).length = c) (xs : List α) :
    ((xs.map f).flatten).length = xs.length * c := by
  induction xs with
  | nil => simp
  | cons x xs ih =>
    simp only [List.map_cons, List.flatten_cons, List.length_append, ih, hf,
      List.length_cons]
    ring

/-- Claim C2: for valid params, every context and every RNG stream, round-1
emission returns the freshly drawn coefficients and wire bytes that are
exactly `A_0 || … || A_{t-1} || R || s` of length `t·G_len + G_len + F_len`,
with `A_j = a_j · G`, `R = r · G`, `s = r + c · a_0` and
`c = hash_to_F(i_be || context || R || Am)` for the 2-byte big-endian index. -/
theorem C2_round1_wire (C : CurveOps F G) (V : CurveValid C) (rng : Nat → F)
    (params : MultisigParams) (context : Bytes) (hp : params.valid) :
    (generate_key_r1 C rng params context).1 = (List.range params.t).map rng ∧
    (generate_key_r1 C rng params context).2 =
      ((List.range params.t).map (fun j => C.G_to_bytes (rng j • C.gen))).flatten
        ++ C.G_to_bytes (rng params.t • C.gen)
        ++ C.F_to_bytes (rng params.t +
            C.hash_to_F (u16_be params.i ++ context
              ++ C.G_to_bytes (rng params.t • C.gen)
              ++ ((List.range params.t).map
                    (fun j => C.G_to_bytes (rng j • C.gen))).flatten)
            * rng 0) ∧
    (generate_key_r1 C rng params context).2.length =
      params.t * C.G_len + C.G_len + C.F_len := by
  have ht : 0 < params.t := hp.1
  have hmaps : (((List.range params.t).map rng).map (fun a => a • C.gen)).map
      C.G_to_bytes = (List.range params.t).map (fun j => C.G_to_bytes (rng j • C.gen)) := by
    rw [List.map_map, List.map_map]
    rfl
  have hser : (generate_key_r1 C rng params context).2 =
      ((List.range params.t).map (fun j => C.G_to_bytes (rng j • C.gen))).flatten
        ++ C.G_to_bytes (rng params.t • C.gen)
        ++ C.F_to_bytes (rng params.t +
            C.hash_to_F (u16_be params.i ++ context
              ++ C.G_to_bytes (rng params.t • C.gen)
              ++ ((List.range params.t).map
                    (fun j => C.G_to_bytes (rng j • C.gen))).flatten)
            * rng 0) := by
    simp only [generate_key_r1]
    rw [hmaps, map_rng_getD_zero rng params.t ht]
    rw [challenge, mul_comm]
  refine ⟨rfl, hser, ?_⟩
  rw [hser]
  simp only [List.length_append]
  rw [flatten_map_length (fun j => C.G_to_bytes (rng j • C.gen)) C.G_len
    (fun j => V.G_to_len _) (List.range params.t), V.G_to_len, V.F_to_len,
    List.length_range]

end Round1

section TestCurve

/-- A concrete toy curve used to witness the theorems: the group is the
additive group of `ZMod 5` with generator `1`, scalars are `ZMod 5`,
one-byte canonical encodings, and the random oracle sums the input bytes. -/
def testCurve : CurveOps (ZMod 5) (ZMod 5) where
  gen := 1
  F_len := 1
  G_len := 1
  F_to_bytes x := [x.val]
  F_from_slice b := match b with
    | [v] => if v < 5 then some ((v : Nat) : ZMod 5) else none
    | _ => none
  G_to_bytes x := [x.val]
  G_from_slice b := match b with
    | [v] => if v < 5 then some ((v : Nat) : ZMod 5) else none
    | _ => none
  hash_to_F b := ((b.sum : Nat) : ZMod 5)
  multiexp ss ps := (List.zipWith (fun s p => s • p) ss ps).sum

lemma testCurveValid : CurveValid testCurve := by
  constructor <;> decide

/-- A fixed test RNG stream. -/
def trng : Nat → ZMod 5 := fun k => ((k : Nat) : ZMod 5) + 2

/-- Witness for C2 at the test curve, `n = t = i = 1`, empty context. -/
theorem C2_round1_wire_witness :
    (generate_key_r1 testCurve trng ⟨1, 1, 1⟩ []).1 = (List.range 1).map trng ∧
    (generate_key_r1 testCurve trng ⟨1, 1, 1⟩ []).2 =
      ((List.range 1).map (fun j => testCurve.G_to_bytes (trng j • testCurve.gen))).flatten
        ++ testCurve.G_to_bytes (trng 1 • testCurve.gen)
        ++ testCurve.F_to_bytes (trng 1 +
            testCurve.hash_to_F (u16_be 1 ++ []
              ++ testCurve.G_to_bytes (trng 1 • testCurve.gen)
              ++ ((List.range 1).map
                    (fun j => testCurve.G_to_bytes (trng j • testCurve.gen))).flatten)
            * trng 0) ∧
    (generate_key_r1 testCurve trng ⟨1, 1, 1⟩ []).2.length =
      1 * testCurve.G_len + testCurve.G_len + testCurve.F_len :=
  C2_round1_wire testCurve testCurveValid trng ⟨1, 1, 1⟩ [] (by decide)

end TestCurve

section VerifyR1

variable {F G : Type} [CommRing F] [AddCommGroup G] [Module F G]
variable [DecidableEq F] [DecidableEq G]

/-- Rust slice `&v[a .. b]`: panics when the range is ill-formed or past the
end of the vector. -/
def rslice (v : Bytes) (a b : Nat) : Except RunError Bytes :=
  if a ≤ b ∧ b ≤ v.length then .ok ((v.drop a).take (b - a))
  else .error RunError.panic

/-- Rust slice `&v[a ..]`: panics when `a` is past the end of the vector. -/
def rsliceFrom (v : Bytes) (a : Nat) : Except RunError Bytes :=
  if a ≤ v.length then .ok (v.drop a) else .error RunError.panic

/-- Rust `Vec` indexing `v[k]`: panics when out of bounds. -/
def rindex {α : Type} (v : List α) (k : Nat) : Except RunError α :=
  match v[k]? with
  | some x => .ok x
  | none => .error RunError.panic

/-- The `R_bytes` closure of `verify_r1` (line 81): the slice
`[t·G_len .. t·G_len + G_len]` holding the nonce commitment. -/
def R_bytes {F G : Type} (C : CurveOps F G) (t : Nat) (b : Bytes) :
    Except RunError Bytes :=
  rslice b (t * C.G_len) (t * C.G_len + C.G_len)

/-- The `R` closure (line 83): decode the nonce commitment, mapping a decode
failure to `InvalidProofOfKnowledge(l)`. -/
def decodeR {F G : Type} (C : CurveOps F G) (t : Nat) (l : Nat) (b : Bytes) :
    Except RunError G := do
  let rb ← R_bytes C t b
  match C.G_from_slice rb with
  | some R => .ok R
  | none => .error (RunError.err (FrostError.InvalidProofOfKnowledge l))

/-- The `s` closure (lines 87-89): decode the trailing bytes as the PoK
scalar, mapping a decode failure to `InvalidProofOfKnowledge(l)`. -/
def decodeS {F G : Type} (C : CurveOps F G) (t : Nat) (l : Nat) (b : Bytes) :
    Except RunError F := do
  let sb ← rsliceFrom b (t * C.G_len + C.G_len)
  match C.F_from_slice sb with
  | some s => .ok s
  | none => .error (RunError.err (FrostError.InvalidProofOfKnowledge l))

/-- The `Am` closure (line 85): the slice `[0 .. t·G_len]` holding the `t`
encoded commitments. -/
def Am_bytes {F G : Type} (C : CurveOps F G) (t : Nat) (b : Bytes) :
    Except RunError Bytes :=
  rslice b 0 (t * C.G_len)

/-- The commitment-parsing loop of `verify_r1` (lines 95-102): decode the `t`
commitment segments, mapping a decode failure to `InvalidCommitment(l)`. -/
def parseCommitments {F G : Type} (C : CurveOps F G) (t : Nat) (l : Nat)
    (b : Bytes) : Except RunError (List G) :=
  (List.range t).mapM (fun c => do
    let seg ← rslice b (c * C.G_len) ((c + 1) * C.G_len)
    match C.G_from_slice seg with
    | some A => .ok A
    | none => .error (RunError.err (FrostError.InvalidCommitment l)))

/-- The mutable state of `verify_r1`'s main loop: the parsed commitment map,
the `first` flag, the count of blinding factors drawn from the RNG so far, and
the scalar/point vectors fed to the batch multi-exponentiation. -/
structure R1Acc (F G : Type) where
  comms : List (Nat × List G)
  first : Bool
  ridx : Nat
  scalars : List F
  points : List G
  deriving DecidableEq

/-- The main loop of `verify_r1` (lines 94-128): for each `l`, parse the `t`
commitments; for `l ≠ i` additionally decode the proof of knowledge and push
`u·R_l`, `−(s_l·u)·G`, `(c_l·u)·A_{l,0}` onto the batch (with `u = 1` for the
first such `l`). -/
def verify_r1_fold (C : CurveOps F G) (rng : Nat → F) (params : MultisigParams)
    (context : Bytes) (bytes : Nat → Bytes) :
    List Nat → R1Acc F G → Except RunError (R1Acc F G)
  | [], acc => .ok acc
  | l :: ls, acc => do
    let these ← parseCommitments C params.t l (bytes l)
    let acc1 : R1Acc F G := { acc with comms := acc.comms ++ [(l, these)] }
    if l = params.i then
      verify_r1_fold C rng params context bytes ls acc1
    else do
      let u := if acc1.first then 1 else rng acc1.ridx
      let ridx2 := if acc1.first then acc1.ridx else acc1.ridx + 1
      let Rl ← decodeR C params.t l (bytes l)
      let sl ← decodeS C params.t l (bytes l)
      let rb ← R_bytes C params.t (bytes l)
      let am ← Am_bytes C params.t (bytes l)
      let c := challenge C l context rb am
      let A0 ← rindex these 0
      let acc2 : R1Acc F G :=
        { comms := acc1.comms, first := false, ridx := ridx2,
          scalars := acc1.scalars ++ [u, -sl * u, if acc1.first then c else c * u],
          points := acc1.points ++ [Rl, C.gen, A0] }
      verify_r1_fold C rng params context bytes ls acc2

/-- The blame fallback of `verify_r1` (lines 137-147): re-check each `l ≠ i`
individually, in increasing order, returning `InvalidProofOfKnowledge(l)` for
the first `l` whose Schnorr identity `s_l·G = R_l + c_l·A_{l,0}` fails. -/
def blame_r1 (C : CurveOps F G) (params : MultisigParams) (context : Bytes)
    (bytes : Nat → Bytes) (comms : List (Nat × List G)) :
    List Nat → Except RunError Unit
  | [] => .ok ()
  | l :: ls =>
    if l = params.i then blame_r1 C params context bytes comms ls
    else do
      let sl ← decodeS C params.t l (bytes l)
      let Rl ← decodeR C params.t l (bytes l)
      let rb ← R_bytes C params.t (bytes l)
      let am ← Am_bytes C params.t (bytes l)
      let c := challenge C l context rb am
      let A0 ← rindex ((mlookup comms l).getD []) 0
      if sl • C.gen ≠ Rl + c • A0 then
        .error (RunError.err (FrostError.InvalidProofOfKnowledge l))
      else
        blame_r1 C params context bytes comms ls

/-- `verify_r1` (key_gen.rs lines 63-153): validate the map, parse every
participant's message, batch-verify the proofs of knowledge, and on batch
failure attribute blame (or report the internal error when every individual
check passes). -/
def verify_r1 (C : CurveOps F G) (rng : Nat → F) (params : MultisigParams)
    (context : Bytes) (our_commitments : Bytes)
    (serialized : List (Nat × Bytes)) :
    Except RunError (List (Nat × List G)) := do
  let m ← match validate_map serialized (List.range' 1 params.n)
      (params.i, our_commitments) with
    | .ok m => Except.ok m
    | .error e => Except.error (RunError.err e)
  let bytes := fun l => (mlookup m l).getD []
  let acc ← verify_r1_fold C rng params context bytes (List.range' 1 params.n)
    { comms := [], first := true, ridx := 0, scalars := [], points := [] }
  if C.multiexp acc.scalars acc.points ≠ 0 then
    match blame_r1 C params context bytes acc.comms (List.range' 1 params.n) with
    | .error e => .error e
    | .ok () => .error (RunError.err
        (FrostError.InternalError ("batch validation is broken")))
  else
    .ok acc.comms

/-- `generate_key_r2` (key_gen.rs lines 173-207): verify round 1, emit one
secret share per counterparty, and retain the local evaluation `f_i(i)`. -/
def generate_key_r2 (C : CurveOps F G) (rng : Nat → F)
    (params : MultisigParams) (context : Bytes) (coefficients : List F)
    (our_commitments : Bytes) (commitments : List (Nat × Bytes)) :
    Except RunError (F × List (Nat × List G) × List (Nat × Bytes)) := do
  let comms ← verify_r1 C rng params context our_commitments commitments
  let res := ((List.range' 1 params.n).filter (fun l => l ≠ params.i)).map
    (fun l => (l, C.F_to_bytes (polynomial coefficients l)))
  let share := polynomial coefficients params.i
  .ok (share, comms, res)

end VerifyR1

section CompleteR2

variable {F G : Type} [CommRing F] [AddCommGroup G] [Module F G] [DecidableEq G]

/-- The exponent vector `[1, i, i², …, i^{t-1}]` built by the repeated
`exp *= i_scalar` loops of `complete_r2` (lines 238-244 and 264-268). -/
def powers (x : F) (t : Nat) : List F := (List.range t).map (fun j => x ^ j)

/-- The share-decoding loop of `complete_r2` (lines 228-231): decode each
round-2 scalar; a non-canonical encoding yields `InvalidShare(params.i)` —
the blamed index is the local one, exactly as the source writes it. -/
def decodeShares (C : CurveOps F G) (iDx : Nat) :
    List (Nat × Bytes) → Except FrostError (List (Nat × F))
  | [] => .ok []
  | (l, b) :: rest =>
    match C.F_from_slice b with
    | none => .error (FrostError.InvalidShare iDx)
    | some x => do
      let r ← decodeShares C iDx rest
      .ok ((l, x) :: r)

/-- The Feldman verification loop of `complete_r2` (lines 233-250): for each
`l ≠ i`, check `multiexp([1,…,i^{t-1}], A_l) == share_l · G`, failing with
`InvalidCommitment(l)`. -/
def checkShares (C : CurveOps F G) (params : MultisigParams)
    (commitments : List (Nat × List G)) :
    List (Nat × F) → Except FrostError Unit
  | [] => .ok ()
  | (l, sh) :: rest =>
    if l = params.i then checkShares C params commitments rest
    else if C.multiexp (powers ((params.i : Nat) : F) params.t)
        ((mlookup commitments l).getD []) ≠ sh • C.gen then
      .error (FrostError.InvalidCommitment l)
    else checkShares C params commitments rest

/-- `MultisigKeys` (declared outside the excerpted sources; its fields are
the spec's `Keys` record, §3). -/
structure MultisigKeys (F G : Type) where
  params : MultisigParams
  secret_share : F
  group_key : G
  verification_shares : List (Nat × G)
  offset : Option F
  deriving DecidableEq

/-- The verification-share computation of `complete_r2` (lines 259-274): for
each `l ∈ 1..=n`, a multi-exponentiation over all `n·t` commitments with
exponents `l^j`. The callers guarantee the commitment map covers `1..=n` with
`t` points per key, so the defaulted lookups stand for the source's indexing. -/
def verificationShares (C : CurveOps F G) (params : MultisigParams)
    (commitments : List (Nat × List G)) : List (Nat × G) :=
  (List.range' 1 params.n).map (fun l =>
    (l, C.multiexp
      (((List.range' 1 params.n).map
          (fun _k => powers ((l : Nat) : F) params.t)).flatten)
      (((List.range' 1 params.n).map (fun k =>
          (List.range params.t).map
            (fun j => ((mlookup commitments k).getD []).getD j 0))).flatten)))

/-- `complete_r2` (key_gen.rs lines 214-282): validate the share map, decode
and verify each share, and assemble the secret share, the verification shares
and the group key. The `debug_assert_eq` of line 275 is a no-op in release
builds and is not modelled. -/
def complete_r2 (C : CurveOps F G) (params : MultisigParams) (share : F)
    (commitments : List (Nat × List G)) (serialized : List (Nat × Bytes)) :
    Except FrostError (MultisigKeys F G) := do
  let m ← validate_map serialized (List.range' 1 params.n)
    (params.i, C.F_to_bytes share)
  let shares ← decodeShares C params.i m
  let _ ← checkShares C params commitments shares
  let secret_share := (shares.map Prod.snd).sum
  let verification_shares := verificationShares C params commitments
  let group_key := (commitments.map (fun p => p.2.getD 0 0)).sum
  .ok { params := params, secret_share := secret_share, group_key := group_key,
        verification_shares := verification_shares, offset := none }

end CompleteR2

section Machine

variable {F G : Type} [CommRing F] [AddCommGroup G] [Module F G]
variable [DecidableEq F] [DecidableEq G]

/-- The key generation state machine (key_gen.rs lines 299-324). -/
structure StateMachine (F G : Type) where
  params : MultisigParams
  context : Bytes
  state : State
  coefficients : Option (List F)
  our_commitments : Option Bytes
  secret : Option F
  commitments : Option (List (Nat × List G))
  deriving DecidableEq

/-- `StateMachine::new` (lines 314-324). -/
def StateMachine.new (params : MultisigParams) (context : Bytes) :
    StateMachine F G :=
  { params := params, context := context, state := State.Fresh,
    coefficients := none, our_commitments := none, secret := none,
    commitments := none }

/-- `StateMachine::generate_coefficients` (lines 329-347). -/
def StateMachine.generate_coefficients (C : CurveOps F G) (rng : Nat → F)
    (m : StateMachine F G) : Except FrostError Bytes × StateMachine F G :=
  if m.state ≠ State.Fresh then
    (.error (FrostError.InvalidKeyGenTransition State.Fresh m.state), m)
  else
    let r1 := generate_key_r1 C rng m.params m.context
    (.ok r1.2,
      { m with coefficients := some r1.1, our_commitments := some r1.2,
               state := State.GeneratedCoefficients })

/-- `StateMachine::generate_secret_shares` (lines 354-376). The two `take()`
calls empty the `Option` slots before `generate_key_r2` runs; a `None` slot
makes the `unwrap` panic, modelled as the `none` result. -/
def StateMachine.generate_secret_shares (C : CurveOps F G) (rng : Nat → F)
    (m : StateMachine F G) (commitments : List (Nat × Bytes)) :
    Option (Except FrostError (List (Nat × Bytes)) × StateMachine F G) :=
  if m.state ≠ State.GeneratedCoefficients then
    some (.error (FrostError.InvalidKeyGenTransition
      State.GeneratedCoefficients m.state), m)
  else
    match m.coefficients, m.our_commitments with
    | some coefficients, some our_commitments =>
      let m1 := { m with coefficients := none, our_commitments := none }
      match generate_key_r2 C rng m.params m.context coefficients
          our_commitments commitments with
      | .error RunError.panic => none
      | .error (RunError.err e) => some (.error e, m1)
      | .ok (secret, comms, shares) =>
        some (.ok shares,
          { m1 with secret := some secret, commitments := some comms,
                    state := State.GeneratedSecretShares })
    | _, _ => none

/-- `StateMachine::complete` (lines 384-401). -/
def StateMachine.complete (C : CurveOps F G) (m : StateMachine F G)
    (shares : List (Nat × Bytes)) :
    Option (Except FrostError (MultisigKeys F G) × StateMachine F G) :=
  if m.state ≠ State.GeneratedSecretShares then
    some (.error (FrostError.InvalidKeyGenTransition
      State.GeneratedSecretShares m.state), m)
  else
    match m.secret, m.commitments with
    | some secret, some comms =>
      let m1 := { m with secret := none, commitments := none }
      match complete_r2 C m.params secret comms shares with
      | .error e => some (.error e, m1)
      | .ok keys => some (.ok keys, { m1 with state := State.Complete })
    | _, _ => none

end Machine

section MachineClaims

variable {F G : Type} [CommRing F] [AddCommGroup G] [Module F G]
variable [DecidableEq F] [DecidableEq G]

/-- A fresh machine over the test curve for `n = 2, t = 1, i = 1`. -/
def freshMachine : StateMachine (ZMod 5) (ZMod 5) :=
  StateMachine.new ⟨2, 1, 1⟩ []

/-- Claim C7, counterexample: on a fresh machine `generate_secret_shares`
returns `InvalidKeyGenTransition(GeneratedCoefficients, Fresh)` — the
`expected` component is the designated predecessor state, not `Fresh` as the
claim asserts. -/
theorem C7_counterexample :
    freshMachine.generate_secret_shares testCurve trng [] =
      some (.error (FrostError.InvalidKeyGenTransition
        State.GeneratedCoefficients State.Fresh), freshMachine) ∧
    FrostError.InvalidKeyGenTransition State.GeneratedCoefficients State.Fresh ≠
      FrostError.InvalidKeyGenTransition State.Fresh State.Fresh := by
  constructor
  · decide
  · decide

/-- Claim C7 as amended: invoking `generate_secret_shares` on a fresh machine
returns `InvalidKeyGenTransition(GeneratedCoefficients, Fresh)` and leaves the
machine (hence its `Fresh` state) unchanged. -/
theorem C7_fresh_transition (C : CurveOps F G) (rng : Nat → F)
    (m : StateMachine F G) (cm : List (Nat × Bytes))
    (h : m.state = State.Fresh) :
    m.generate_secret_shares C rng cm =
      some (.error (FrostError.InvalidKeyGenTransition
        State.GeneratedCoefficients State.Fresh), m) := by
  unfold StateMachine.generate_secret_shares
  rw [h]
  rw [if_pos (by decide)]

/-- Witness for the amended C7 at a concrete fresh machine. -/
theorem C7_fresh_transition_witness :
    freshMachine.generate_secret_shares testCurve trng [] =
      some (.error (FrostError.InvalidKeyGenTransition
        State.GeneratedCoefficients State.Fresh), freshMachine) :=
  C7_fresh_transition testCurve trng freshMachine [] rfl

/-- Claim C8: the machine permits exactly the traversal
`Fresh → GeneratedCoefficients → GeneratedSecretShares → Complete`: each
operation invoked from any state other than its designated predecessor fails
with `InvalidKeyGenTransition(expected, actual)` and leaves the machine
unchanged, and an operation that succeeds was necessarily invoked from its
designated predecessor and moved the machine to the next state (so no round
can be re-entered). -/
theorem C8_state_machine (C : CurveOps F G) (rng : Nat → F) :
    (∀ (m : StateMachine F G), m.state ≠ State.Fresh →
      m.generate_coefficients C rng =
        (.error (FrostError.InvalidKeyGenTransition State.Fresh m.state), m)) ∧
    (∀ (m : StateMachine F G) (cm : List (Nat × Bytes)),
      m.state ≠ State.GeneratedCoefficients →
      m.generate_secret_shares C rng cm =
        some (.error (FrostError.InvalidKeyGenTransition
          State.GeneratedCoefficients m.state), m)) ∧
    (∀ (m : StateMachine F G) (sh : List (Nat × Bytes)),
      m.state ≠ State.GeneratedSecretShares →
      m.complete C sh =
        some (.error (FrostError.InvalidKeyGenTransition
          State.GeneratedSecretShares m.state), m)) ∧
    (∀ (m m2 : StateMachine F G) (r : Bytes),
      m.generate_coefficients C rng = (.ok r, m2) →
      m.state = State.Fresh ∧ m2.state = State.GeneratedCoefficients) ∧
    (∀ (m m2 : StateMachine F G) (cm : List (Nat × Bytes))
        (r : List (Nat × Bytes)),
      m.generate_secret_shares C rng cm = some (.ok r, m2) →
      m.state = State.GeneratedCoefficients ∧
        m2.state = State.GeneratedSecretShares) ∧
    (∀ (m m2 : StateMachine F G) (sh : List (Nat × Bytes))
        (r : MultisigKeys F G),
      m.complete C sh = some (.ok r, m2) →
      m.state = State.GeneratedSecretShares ∧ m2.state = State.Complete) := by
  refine ⟨?_, ?_, ?_, ?_, ?_, ?_⟩
  · intro m h
    unfold StateMachine.generate_coefficients
    rw [if_pos h]
  · intro m cm h
    unfold StateMachine.generate_secret_shares
    rw [if_pos h]
  · intro m sh h
    unfold StateMachine.complete
    rw [if_pos h]
  · intro m m2 r h
    unfold StateMachine.generate_coefficients at h
    by_cases hs : m.state = State.Fresh
    · rw [if_neg (by simp [hs])] at h
      refine ⟨hs, ?_⟩
      have h2 := congrArg Prod.snd h
      simp only at h2
      rw [← h2]
    · rw [if_pos hs] at h
      exact absurd (congrArg Prod.fst h) (by simp)
  · intro m m2 cm r h
    unfold StateMachine.generate_secret_shares at h
    by_cases hs : m.state = State.GeneratedCoefficients
    · rw [if_neg (by simp [hs])] at h
      refine ⟨hs, ?_⟩
      cases hc : m.coefficients with
      | none => rw [hc] at h; simp at h
      | some cf =>
        cases ho : m.our_commitments with
        | none => rw [hc, ho] at h; simp at h
        | some oc =>
          rw [hc, ho] at h
          dsimp only at h
          cases hr : generate_key_r2 C rng m.params m.context cf oc cm with
          | error e =>
            cases e with
            | panic => rw [hr] at h; simp at h
            | err e2 => rw [hr] at h; simp at h
          | ok v =>
            obtain ⟨secret, comms, shares⟩ := v
            rw [hr] at h
            simp only [Option.some.injEq, Prod.mk.injEq, Except.ok.injEq] at h
            rw [← h.2]
    · rw [if_pos hs] at h
      simp at h
  · intro m m2 sh r h
    unfold StateMachine.complete at h
    by_cases hs : m.state = State.GeneratedSecretShares
    · rw [if_neg (by simp [hs])] at h
      refine ⟨hs, ?_⟩
      cases hc : m.secret with
      | none => rw [hc] at h; simp at h
      | some sec =>
        cases ho : m.commitments with
        | none => rw [hc, ho] at h; simp at h
        | some comms =>
          rw [hc, ho] at h
          dsimp only at h
          cases hr : complete_r2 C m.params sec comms sh with
          | error e => rw [hr] at h; simp at h
          | ok keys =>
            rw [hr] at h
            simp only [Option.some.injEq, Prod.mk.injEq, Except.ok.injEq] at h
            rw [← h.2]
    · rw [if_pos hs] at h
      simp at h

/-- A machine that already reached `Complete`, used by the C8 witness. -/
def doneMachine : StateMachine (ZMod 5) (ZMod 5) :=
  { params := ⟨2, 1, 1⟩, context := [], state := State.Complete,
    coefficients := none, our_commitments := none, secret := none,
    commitments := none }

/-- Witness for C8: every operation invoked on a completed machine fails and
leaves the machine unchanged. -/
theorem C8_state_machine_witness :
    doneMachine.generate_coefficients testCurve trng =
      (.error (FrostError.InvalidKeyGenTransition State.Fresh State.Complete),
        doneMachine) ∧
    doneMachine.generate_secret_shares testCurve trng [] =
      some (.error (FrostError.InvalidKeyGenTransition
        State.GeneratedCoefficients State.Complete), doneMachine) ∧
    doneMachine.complete testCurve [] =
      some (.error (FrostError.InvalidKeyGenTransition
        State.GeneratedSecretShares State.Complete), doneMachine) :=
  ⟨(C8_state_machine testCurve trng).1 doneMachine (by decide),
   (C8_state_machine testCurve trng).2.1 doneMachine [] (by decide),
   (C8_state_machine testCurve trng).2.2.1 doneMachine [] (by decide)⟩

/-- Claim C10: when `generate_secret_shares` runs from
`GeneratedCoefficients` and the underlying round fails, the state stays
`GeneratedCoefficients` but the `coefficients` and `our_commitments` slots
have been taken; a further call from that situation panics on the `unwrap`
instead of returning an error. -/
theorem C10_take_then_panic (C : CurveOps F G) (rng : Nat → F) :
    (∀ (m : StateMachine F G) (cm : List (Nat × Bytes)) (cf : List F)
        (oc : Bytes) (e : FrostError),
      m.state = State.GeneratedCoefficients → m.coefficients = some cf →
      m.our_commitments = some oc →
      generate_key_r2 C rng m.params m.context cf oc cm =
        .error (RunError.err e) →
      m.generate_secret_shares C rng cm =
        some (.error e,
          { m with coefficients := none, our_commitments := none }) ∧
      ({ m with coefficients := none, our_commitments := none } :
          StateMachine F G).state = State.GeneratedCoefficients) ∧
    (∀ (m : StateMachine F G) (cm : List (Nat × Bytes)),
      m.state = State.GeneratedCoefficients → m.coefficients = none →
      m.generate_secret_shares C rng cm = none) := by
  constructor
  · intro m cm cf oc e hs hc ho hr
    constructor
    · unfold StateMachine.generate_secret_shares
      rw [if_neg (by simp [hs])]
      rw [hc, ho]
      dsimp only
      rw [hr]
    · exact hs
  · intro m cm hs hc
    unfold StateMachine.generate_secret_shares
    rw [if_neg (by simp [hs])]
    rw [hc]

/-- A machine in `GeneratedCoefficients` with populated slots (`n = 2, t = 1,
i = 1`), and its poisoned counterpart after a failed round. -/
def gcMachine : StateMachine (ZMod 5) (ZMod 5) :=
  { params := ⟨2, 1, 1⟩, context := [], state := State.GeneratedCoefficients,
    coefficients := some [2], our_commitments := some [2, 3, 0],
    secret := none, commitments := none }

def gcPoisoned : StateMachine (ZMod 5) (ZMod 5) :=
  { gcMachine with coefficients := none, our_commitments := none }

/-- Witness for C10: a failing round (empty peer map) empties the slots while
keeping state `GeneratedCoefficients`; the next call panics. -/
theorem C10_take_then_panic_witness :
    gcMachine.generate_secret_shares testCurve trng [] =
      some (.error (FrostError.MissingParticipant 2), gcPoisoned) ∧
    gcPoisoned.generate_secret_shares testCurve trng [] = none :=
  ⟨((C10_take_then_panic testCurve trng).1 gcMachine [] [2] [2, 3, 0]
      (FrostError.MissingParticipant 2) rfl rfl rfl (by decide)).1,
   (C10_take_then_panic testCurve trng).2 gcPoisoned [] rfl rfl⟩

end MachineClaims

section BugClaims

/-- Claim C6, code bug: when participant 2's round-2 share bytes are
non-canonical (`[7]` for the one-byte `ZMod 5` codec), `complete_r2` returns
`InvalidShare(1)` — the error carries the LOCAL index `params.i`
(key_gen.rs line 230 writes `InvalidShare(params.i())`), not the sender's
index `2` that the claim (and spec §7) assign blame to. -/
theorem C6_invalid_share_blames_local :
    complete_r2 testCurve ⟨2, 1, 1⟩ 2 [(1, [2]), (2, [3])] [(2, [7])] =
      .error (FrostError.InvalidShare 1) ∧
    (1 : Nat) = (MultisigParams.mk 2 1 1).i ∧ (1 : Nat) ≠ 2 := by
  refine ⟨by decide, rfl, by decide⟩

/-- Claim C5, code bug: an under-length round-1 message (here the empty
message from participant 2, against the expected `t·G_len + G_len + F_len = 3`
bytes) makes `verify_r1` panic on an out-of-bounds slice (key_gen.rs line 99)
instead of rejecting it with `InvalidCommitment(2)`. -/
theorem C5_underlength_panics :
    verify_r1 testCurve trng ⟨2, 1, 1⟩ [] [2, 3, 0] [(2, [])] =
      .error RunError.panic := by decide

end BugClaims

section FeldmanCheck

variable {F G : Type} [CommRing F] [AddCommGroup G] [Module F G] [DecidableEq G]

lemma except_bind_ok {ε α β : Type} (a : α) (f : α → Except ε β) :
    (Except.ok a : Except ε α) >>= f = f a := rfl

lemma except_bind_error {ε α β : Type} (e : ε) (f : α → Except ε β) :
    (Except.error e : Except ε α) >>= f = Except.error e := rfl

/-- The Feldman identity `multiexp([1,…,i^{t-1}], A_l) == share_l · G` tested
by the loop of `complete_r2`. -/
@[reducible] def feldmanOk (C : CurveOps F G) (params : MultisigParams)
    (commitments : List (Nat × List G)) (l : Nat) (sh : F) : Prop :=
  C.multiexp (powers ((params.i : Nat) : F) params.t)
    ((mlookup commitments l).getD []) = sh • C.gen

instance (C : CurveOps F G) (params : MultisigParams)
    (commitments : List (Nat × List G)) (l : Nat) (sh : F) :
    Decidable (feldmanOk C params commitments l sh) := by
  unfold feldmanOk; infer_instance

lemma checkShares_ok_of_all (C : CurveOps F G) (params : MultisigParams)
    (commitments : List (Nat × List G)) :
    ∀ (shares : List (Nat × F)),
      (∀ p ∈ shares, p.1 ≠ params.i → feldmanOk C params commitments p.1 p.2) →
      checkShares C params commitments shares = .ok () := by
  intro shares
  induction shares with
  | nil => intro _; rfl
  | cons p rest ih =>
    intro hall
    obtain ⟨l, sh⟩ := p
    unfold checkShares
    by_cases hl : l = params.i
    · rw [if_pos hl]
      exact ih (fun q hq => hall q (List.mem_cons_of_mem _ hq))
    · rw [if_neg hl,
        if_neg (not_not_intro (hall (l, sh) (List.mem_cons_self _ _) hl))]
      exact ih (fun q hq => hall q (List.mem_cons_of_mem _ hq))

lemma checkShares_all_of_ok (C : CurveOps F G) (params : MultisigParams)
    (commitments : List (Nat × List G)) :
    ∀ (shares : List (Nat × F)),
      checkShares C params commitments shares = .ok () →
      ∀ p ∈ shares, p.1 ≠ params.i → feldmanOk C params commitments p.1 p.2 := by
  intro shares
  induction shares with
  | nil => intro _ p hp; cases hp
  | cons q rest ih =>
    intro h p hp hpi
    obtain ⟨l, sh⟩ := q
    unfold checkShares at h
    by_cases hl : l = params.i
    · rw [if_pos hl] at h
      rcases List.mem_cons.mp hp with heq | hmem
      · exact absurd (by rw [heq]; exact hl) hpi
      · exact ih h p hmem hpi
    · rw [if_neg hl] at h
      by_cases hfail : feldmanOk C params commitments l sh
      · rw [if_neg (not_not_intro hfail)] at h
        rcases List.mem_cons.mp hp with heq | hmem
        · rw [heq]; exact hfail
        · exact ih h p hmem hpi
      · rw [if_pos hfail] at h
        cases h

lemma checkShares_first_fail (C : CurveOps F G) (params : MultisigParams)
    (commitments : List (Nat × List G)) :
    ∀ (pre : List (Nat × F)) (l : Nat) (sh : F) (post : List (Nat × F)),
      l ≠ params.i →
      ¬ feldmanOk C params commitments l sh →
      (∀ p ∈ pre, p.1 ≠ params.i → feldmanOk C params commitments p.1 p.2) →
      checkShares C params commitments (pre ++ (l, sh) :: post) =
        .error (FrostError.InvalidCommitment l) := by
  intro pre
  induction pre with
  | nil =>
    intro l sh post hl hfail _
    rw [List.nil_append]
    unfold checkShares
    rw [if_neg hl, if_pos hfail]
  | cons q rest ih =>
    intro l sh post hl hfail hpre
    obtain ⟨lq, shq⟩ := q
    rw [List.cons_append]
    unfold checkShares
    by_cases hq : lq = params.i
    · rw [if_pos hq]
      exact ih l sh post hl hfail
        (fun p hp => hpre p (List.mem_cons_of_mem _ hp))
    · rw [if_neg hq,
        if_neg (not_not_intro (hpre (lq, shq) (List.mem_cons_self _ _) hq))]
      exact ih l sh post hl hfail
        (fun p hp => hpre p (List.mem_cons_of_mem _ hp))

/-- Claim C3: in round-2 finish (with the share map validated and every share
decoded), if the Feldman check `share_l · G == Σ_j i^j · A_{l,j}` fails for an
entry `l ≠ i` while every earlier entry passes, `complete_r2` returns
`InvalidCommitment(l)`; conversely, if every entry `l ≠ i` passes the check,
no error is returned at all. In particular a single tampered share `l` yields
exactly `InvalidCommitment(l)`. -/
theorem C3_share_verification (C : CurveOps F G) (params : MultisigParams)
    (share : F) (commitments : List (Nat × List G))
    (serialized : List (Nat × Bytes)) (m : List (Nat × Bytes))
    (shares : List (Nat × F))
    (hvm : validate_map serialized (List.range' 1 params.n)
      (params.i, C.F_to_bytes share) = .ok m)
    (hdec : decodeShares C params.i m = .ok shares) :
    (∀ (pre post : List (Nat × F)) (l : Nat) (sh : F),
      shares = pre ++ (l, sh) :: post →
      l ≠ params.i →
      ¬ feldmanOk C params commitments l sh →
      (∀ p ∈ pre, p.1 ≠ params.i → feldmanOk C params commitments p.1 p.2) →
      complete_r2 C params share commitments serialized =
        .error (FrostError.InvalidCommitment l)) ∧
    ((∀ p ∈ shares, p.1 ≠ params.i → feldmanOk C params commitments p.1 p.2) →
      ∃ ks, complete_r2 C params share commitments serialized = .ok ks) := by
  have hbase : complete_r2 C params share commitments serialized =
      (checkShares C params commitments shares >>= fun _ =>
        Except.ok
          { params := params,
            secret_share := (shares.map Prod.snd).sum,
            group_key := (commitments.map (fun p => p.2.getD 0 0)).sum,
            verification_shares := verificationShares C params commitments,
            offset := none }) := by
    unfold complete_r2
    rw [hvm, except_bind_ok, hdec, except_bind_ok]
  constructor
  · intro pre post l sh hsplit hl hfail hpre
    rw [hbase, hsplit,
      checkShares_first_fail C params commitments pre l sh post hl hfail hpre,
      except_bind_error]
  · intro hall
    refine ⟨{ params := params,
              secret_share := (shares.map Prod.snd).sum,
              group_key := (commitments.map (fun p => p.2.getD 0 0)).sum,
              verification_shares := verificationShares C params commitments,
              offset := none }, ?_⟩
    rw [hbase, checkShares_ok_of_all C params commitments shares hall,
      except_bind_ok]

/-- Witness for C3: `n = 2, t = 1, i = 1`; participant 2's honest share is
`3`; tampering it to `4` yields `InvalidCommitment(2)`, while the honest run
completes. -/
theorem C3_share_verification_witness :
    complete_r2 testCurve ⟨2, 1, 1⟩ 2 [(1, [2]), (2, [3])] [(2, [4])] =
      .error (FrostError.InvalidCommitment 2) ∧
    (∃ ks, complete_r2 testCurve ⟨2, 1, 1⟩ 2 [(1, [2]), (2, [3])] [(2, [3])] =
      .ok ks) :=
  ⟨(C3_share_verification testCurve ⟨2, 1, 1⟩ 2 [(1, [2]), (2, [3])]
      [(2, [4])] [(1, [2]), (2, [4])] [(1, 2), (2, 4)]
      (by decide) (by decide)).1
      [(1, 2)] [] 2 4 (by decide) (by decide) (by decide) (by decide),
   (C3_share_verification testCurve ⟨2, 1, 1⟩ 2 [(1, [2]), (2, [3])]
      [(2, [3])] [(1, [2]), (2, [3])] [(1, 2), (2, 3)]
      (by decide) (by decide)).2 (by decide)⟩

end FeldmanCheck

section C1Helpers

variable {F G : Type} [CommRing F] [AddCommGroup G] [Module F G]

lemma mlookup_mem {α : Type} :
    ∀ (m : List (Nat × α)) (k : Nat) (v : α),
      mlookup m k = some v → (k, v) ∈ m := by
  intro m
  induction m with
  | nil => intro k v h; cases h
  | cons p ps ih =>
    intro k v h
    unfold mlookup at h
    by_cases hp : p.1 = k
    · rw [if_pos hp] at h
      have hv : p.2 = v := Option.some.inj h
      exact List.mem_cons.mpr (Or.inl (by rw [← hp, ← hv]))
    · rw [if_neg hp] at h
      exact List.mem_cons_of_mem _ (ih k v h)

lemma mlookup_isSome_of_mem_keys {α : Type} :
    ∀ (m : List (Nat × α)) (k : Nat),
      k ∈ m.map Prod.fst → (mlookup m k).isSome := by
  intro m
  induction m with
  | nil => intro k hk; cases hk
  | cons p ps ih =>
    intro k hk
    unfold mlookup
    by_cases hp : p.1 = k
    · rw [if_pos hp]; rfl
    · rw [if_neg hp]
      refine ih k ?_
      rcases List.mem_cons.mp hk with heq | hmem
      · exact absurd heq.symm hp
      · exact hmem

lemma mlookup_head_ne {α : Type} (p : Nat × α) (ps : List (Nat × α))
    (k : Nat) (hk : ¬ p.1 = k) : mlookup (p :: ps) k = mlookup ps k := by
  conv_lhs => unfold mlookup
  rw [if_neg hk]

lemma mlookup_head_eq {α : Type} (p : Nat × α) (ps : List (Nat × α)) :
    mlookup (p :: ps) p.1 = some p.2 := by
  unfold mlookup
  rw [if_pos rfl]

lemma mlookup_map_self {α : Type} (f : Nat → α) :
    ∀ (ks : List Nat) (k : Nat), k ∈ ks →
      mlookup (ks.map (fun x => (x, f x))) k = some (f k) := by
  intro ks
  induction ks with
  | nil => intro k hk; cases hk
  | cons a ks ih =>
    intro k hk
    rw [List.map_cons]
    unfold mlookup
    by_cases ha : a = k
    · rw [if_pos ha, ha]
    · rw [if_neg ha]
      refine ih k ?_
      rcases List.mem_cons.mp hk with heq | hmem
      · exact absurd heq.symm ha
      · exact hmem

lemma filterMap_someMap_eq_map {α : Type} (f : Nat → Option α) (d : α) :
    ∀ (ls : List Nat), (∀ l ∈ ls, (f l).isSome) →
      ls.filterMap (fun l => (f l).map (fun v => (l, v))) =
        ls.map (fun l => (l, (f l).getD d)) := by
  intro ls
  induction ls with
  | nil => intro _; rfl
  | cons a ls ih =>
    intro h
    obtain ⟨v, hv⟩ := Option.isSome_iff_exists.mp (h a (List.mem_cons_self _ _))
    rw [List.filterMap_cons, List.map_cons]
    rw [hv]
    rw [ih (fun l hl => h l (List.mem_cons_of_mem _ hl))]
    rfl

lemma validate_map_ok_inv {α : Type} (m out : List (Nat × α))
    (included : List Nat) (ours : Nat × α)
    (h : validate_map m included ours = .ok out) :
    (∀ l ∈ included,
      (mlookup (ours :: m.filter (fun p => p.1 ≠ ours.1)) l).isSome) ∧
    out = included.filterMap
      (fun l => (mlookup (ours :: m.filter (fun p => p.1 ≠ ours.1)) l).map
        (fun v => (l, v))) := by
  unfold validate_map at h
  dsimp only at h
  cases hf : included.find?
      (fun l => (mlookup (ours :: m.filter (fun p => p.1 ≠ ours.1)) l).isNone) with
  | some l => rw [hf] at h; cases h
  | none =>
    rw [hf] at h
    cases hg : ((ours :: m.filter (fun p => p.1 ≠ ours.1)).map Prod.fst).find?
        (fun k =>
          decide (1 < ((ours :: m.filter (fun p => p.1 ≠ ours.1)).map
            Prod.fst).count k) || decide (¬ k ∈ included)) with
    | some k => rw [hg] at h; cases h
    | none =>
      rw [hg] at h
      refine ⟨?_, (Except.ok.inj h).symm⟩
      intro l hl
      have hx := List.find?_eq_none.mp hf l hl
      cases hmx : mlookup (ours :: m.filter (fun p => p.1 ≠ ours.1)) l with
      | none => rw [hmx] at hx; exact absurd rfl hx
      | some v => rfl

lemma decodeShares_map {G' : Type} [DecidableEq G'] (C : CurveOps F G')
    (iDx : Nat) (bv : Nat → Bytes) :
    ∀ (ls : List Nat) (sh : List (Nat × F)),
      decodeShares C iDx (ls.map (fun l => (l, bv l))) = .ok sh →
      sh = ls.map (fun l => (l, (C.F_from_slice (bv l)).getD 0)) ∧
      ∀ l ∈ ls, (C.F_from_slice (bv l)).isSome := by
  intro ls
  induction ls with
  | nil =>
    intro sh h
    refine ⟨(Except.ok.inj h).symm, ?_⟩
    intro l hl; cases hl
  | cons a ls ih =>
    intro sh h
    rw [List.map_cons] at h
    unfold decodeShares at h
    cases hfa : C.F_from_slice (bv a) with
    | none => rw [hfa] at h; cases h
    | some x =>
      rw [hfa] at h
      dsimp only at h
      cases hrest : decodeShares C iDx (ls.map (fun l => (l, bv l))) with
      | error e => rw [hrest, except_bind_error] at h; cases h
      | ok r =>
        rw [hrest, except_bind_ok] at h
        obtain ⟨h1, h2⟩ := ih r hrest
        have hsh : sh = (a, x) :: r := (Except.ok.inj h).symm
        constructor
        · rw [hsh, h1, List.map_cons, hfa]
          rfl
        · intro l hl
          rcases List.mem_cons.mp hl with heq | hmem
          · rw [heq, hfa]; rfl
          · exact h2 l hmem

lemma self_eq_map_range_getD {α : Type} (d : α) :
    ∀ (xs : List α), xs = (List.range xs.length).map (fun j => xs.getD j d) := by
  intro xs
  induction xs with
  | nil => rfl
  | cons x xs ih =>
    have hmap : ((List.range xs.length).map Nat.succ).map
        (fun j => (x :: xs).getD j d) =
        (List.range xs.length).map (fun j => xs.getD j d) := by
      rw [List.map_map]
      exact List.map_congr_left (fun a _ => by simp)
    rw [List.length_cons, List.range_succ_eq_map, List.map_cons, hmap, ← ih]
    rfl

lemma zipWith_map_same {α β γ δ : Type} (h : β → γ → δ) (f : α → β)
    (g : α → γ) :
    ∀ ls : List α,
      List.zipWith h (ls.map f) (ls.map g) = ls.map (fun x => h (f x) (g x)) := by
  intro ls
  induction ls with
  | nil => rfl
  | cons a ls ih => simp only [List.map_cons, List.zipWith_cons_cons, ih]

lemma zipWith_flatten_sum (ks : List Nat) (fe : Nat → List F)
    (fg : Nat → List G)
    (hlen : ∀ k ∈ ks, (fe k).length = (fg k).length) :
    (List.zipWith (fun (a : F) (g : G) => a • g)
      ((ks.map fe).flatten) ((ks.map fg).flatten)).sum =
      (ks.map (fun k =>
        (List.zipWith (fun (a : F) (g : G) => a • g) (fe k) (fg k)).sum)).sum := by
  induction ks with
  | nil => rfl
  | cons a ks ih =>
    simp only [List.map_cons, List.flatten_cons]
    rw [List.zipWith_append _ _ _ _ _ (hlen a (List.mem_cons_self _ _)),
      List.sum_append, List.sum_cons,
      ih (fun k hk => hlen k (List.mem_cons_of_mem _ hk))]

lemma assoc_eq_map_of_keys {α : Type} (d : α) :
    ∀ (m : List (Nat × α)) (ks : List Nat),
      m.map Prod.fst = ks → ks.Nodup →
      m = ks.map (fun k => (k, (mlookup m k).getD d)) := by
  intro m
  induction m with
  | nil => intro ks h _; rw [← h]; rfl
  | cons p ps ih =>
    intro ks h hnd
    subst h
    rw [List.map_cons, List.map_cons]
    have hnd' := List.nodup_cons.mp hnd
    have hmap : (ps.map Prod.fst).map
        (fun k => (k, (mlookup (p :: ps) k).getD d)) =
        (ps.map Prod.fst).map (fun k => (k, (mlookup ps k).getD d)) := by
      refine List.map_congr_left (fun k hk => ?_)
      have hkp : ¬ p.1 = k := fun he => hnd'.1 (by rw [he]; exact hk)
      rw [mlookup_head_ne p ps k hkp]
    rw [hmap, ← ih (ps.map Prod.fst) rfl hnd'.2]
    have hp : p = (p.1, (mlookup (p :: ps) p.1).getD d) := by
      rw [mlookup_head_eq]
      rfl
    exact congrArg (fun q => q :: ps) hp

end C1Helpers

section C1Claim

variable {F G : Type} [CommRing F] [AddCommGroup G] [Module F G] [DecidableEq G]

/-- Claim C1: for a legally driven state machine whose `complete` returns
`Ok(keys)` — formalised over `complete_r2` with the guarantees the legal drive
provides (the commitment map output by `verify_r1` covers `1..=n` with `t`
points per participant, and the retained local share is consistent with the
local commitments) — the outputs satisfy `group_key = Σ_l A_{l,0}`,
`verification_shares[l] = Σ_{k,j} l^j · A_{k,j}` for every `l ∈ 1..=n`, and
`secret_share · G = verification_shares[i]`. -/
theorem C1_complete_outputs (C : CurveOps F G) (V : CurveValid C)
    (params : MultisigParams) (hp : params.valid)
    (hms : ∀ ss ps, C.multiexp ss ps =
      (List.zipWith (fun (a : F) (g : G) => a • g) ss ps).sum)
    (share : F) (commitments : List (Nat × List G))
    (serialized : List (Nat × Bytes)) (keys : MultisigKeys F G)
    (hcov : commitments.map Prod.fst = List.range' 1 params.n)
    (hlen : ∀ p ∈ commitments, p.2.length = params.t)
    (hown : share • C.gen =
      ((List.range params.t).map (fun j => ((params.i : F) ^ j) •
        ((mlookup commitments params.i).getD []).getD j 0)).sum)
    (hok : complete_r2 C params share commitments serialized = .ok keys) :
    keys.group_key = ((List.range' 1 params.n).map (fun l =>
      ((mlookup commitments l).getD []).getD 0 0)).sum ∧
    (∀ l ∈ List.range' 1 params.n,
      mlookup keys.verification_shares l = some
        (((List.range' 1 params.n).map (fun k =>
          ((List.range params.t).map (fun j => ((l : F) ^ j) •
            ((mlookup commitments k).getD []).getD j 0)).sum)).sum)) ∧
    keys.secret_share • C.gen =
      (mlookup keys.verification_shares params.i).getD 0 := by
  unfold complete_r2 at hok
  cases hvm : validate_map serialized (List.range' 1 params.n)
      (params.i, C.F_to_bytes share) with
  | error e => rw [hvm, except_bind_error] at hok; cases hok
  | ok m0 =>
  rw [hvm, except_bind_ok] at hok
  cases hdec : decodeShares C params.i m0 with
  | error e => rw [hdec, except_bind_error] at hok; cases hok
  | ok shares0 =>
  rw [hdec, except_bind_ok] at hok
  cases hchk : checkShares C params commitments shares0 with
  | error e => rw [hchk, except_bind_error] at hok; cases hok
  | ok u =>
  cases u
  rw [hchk, except_bind_ok] at hok
  have hkeys := Except.ok.inj hok
  subst hkeys
  -- the verification-share map
  have hvs : ∀ l ∈ List.range' 1 params.n,
      mlookup (verificationShares C params commitments) l = some
        (((List.range' 1 params.n).map (fun k =>
          ((List.range params.t).map (fun j => ((l : F) ^ j) •
            ((mlookup commitments k).getD []).getD j 0)).sum)).sum) := by
    intro l hl
    unfold verificationShares
    rw [mlookup_map_self _ (List.range' 1 params.n) l hl]
    refine congrArg some ?_
    rw [hms]
    rw [zipWith_flatten_sum (List.range' 1 params.n)
      (fun _k => powers ((l : Nat) : F) params.t)
      (fun k => (List.range params.t).map
        (fun j => ((mlookup commitments k).getD []).getD j 0))
      (fun k _ => by simp [powers])]
    refine congrArg List.sum (List.map_congr_left (fun k hk => ?_))
    unfold powers
    rw [zipWith_map_same (fun (a : F) (g : G) => a • g) _ _
      (List.range params.t)]
  -- the group key
  have hgk : (commitments.map (fun p => p.2.getD 0 0)).sum =
      ((List.range' 1 params.n).map (fun l =>
        ((mlookup commitments l).getD []).getD 0 0)).sum := by
    conv_lhs => rw [assoc_eq_map_of_keys ([] : List G) commitments
      (List.range' 1 params.n) hcov (List.nodup_range' 1 params.n)]
    rw [List.map_map]
    rfl
  -- the validated map and the decoded shares
  obtain ⟨hsome, hout⟩ := validate_map_ok_inv serialized m0
    (List.range' 1 params.n) (params.i, C.F_to_bytes share) hvm
  have hm0 : m0 = (List.range' 1 params.n).map (fun l =>
      (l, (mlookup ((params.i, C.F_to_bytes share) :: serialized.filter
        (fun p => p.1 ≠ (params.i, C.F_to_bytes share).1)) l).getD [])) := by
    rw [hout]
    exact filterMap_someMap_eq_map _ [] _ hsome
  rw [hm0] at hdec
  obtain ⟨hsh, hsome2⟩ := decodeShares_map C params.i _
    (List.range' 1 params.n) shares0 hdec
  -- the decoded value at the local index is the retained share
  have hbvi : (mlookup ((params.i, C.F_to_bytes share) :: serialized.filter
      (fun p => p.1 ≠ (params.i, C.F_to_bytes share).1)) params.i).getD [] =
      C.F_to_bytes share := by
    rw [mlookup_head_eq]
    rfl
  have hdeci : (C.F_from_slice
      ((mlookup ((params.i, C.F_to_bytes share) :: serialized.filter
        (fun p => p.1 ≠ (params.i, C.F_to_bytes share).1)) params.i).getD
        [])).getD 0 = share := by
    rw [hbvi, V.F_round]
    rfl
  -- every commitment vector has length t
  have hA : ∀ l ∈ List.range' 1 params.n,
      ((mlookup commitments l).getD [] : List G).length = params.t := by
    intro l hl
    have hsm : (mlookup commitments l).isSome :=
      mlookup_isSome_of_mem_keys commitments l (by rw [hcov]; exact hl)
    obtain ⟨cs, hcs⟩ := Option.isSome_iff_exists.mp hsm
    rw [hcs]
    exact hlen (l, cs) (mlookup_mem commitments l cs hcs)
  -- the per-participant identity for each decoded share
  have hall := checkShares_all_of_ok C params commitments shares0 hchk
  have hshl : ∀ l ∈ List.range' 1 params.n,
      ((C.F_from_slice
        ((mlookup ((params.i, C.F_to_bytes share) :: serialized.filter
          (fun p => p.1 ≠ (params.i, C.F_to_bytes share).1)) l).getD
          [])).getD 0) • C.gen =
        ((List.range params.t).map (fun j => ((params.i : F) ^ j) •
          ((mlookup commitments l).getD []).getD j 0)).sum := by
    intro l hl
    by_cases hli : l = params.i
    · rw [hli, hdeci]
      exact hown
    · have hmem : (l, (C.F_from_slice
          ((mlookup ((params.i, C.F_to_bytes share) :: serialized.filter
            (fun p => p.1 ≠ (params.i, C.F_to_bytes share).1)) l).getD
            [])).getD 0) ∈ shares0 := by
        rw [hsh]
        exact List.mem_map_of_mem _ hl
      have hfeld := hall _ hmem hli
      rw [← hfeld]
      rw [hms]
      have hcsform : ((mlookup commitments l).getD [] : List G) =
          (List.range params.t).map
            (fun j => ((mlookup commitments l).getD []).getD j 0) := by
        conv_lhs => rw [self_eq_map_range_getD (0 : G)
          ((mlookup commitments l).getD [])]
        rw [hA l hl]
      conv_lhs => rw [hcsform]
      unfold powers
      rw [zipWith_map_same (fun (a : F) (g : G) => a • g) _ _
        (List.range params.t)]
  -- assemble the three conclusions
  have hi_mem : params.i ∈ List.range' 1 params.n := by
    rw [List.mem_range'_1]
    obtain ⟨_, _, hi1, hin, _⟩ := hp
    omega
  refine ⟨hgk, hvs, ?_⟩
  show (shares0.map Prod.snd).sum • C.gen =
    (mlookup (verificationShares C params commitments) params.i).getD 0
  rw [hvs params.i hi_mem]
  rw [hsh, List.map_map, List.sum_smul, List.map_map]
  exact congrArg List.sum (List.map_congr_left (fun l hl => hshl l hl))

/-- The keys produced by the `n = t = i = 1` run used to witness C1. -/
def c1Keys : MultisigKeys (ZMod 5) (ZMod 5) :=
  { params := ⟨1, 1, 1⟩, secret_share := 2, group_key := 2,
    verification_shares := [(1, 2)], offset := none }

set_option maxHeartbeats 1600000 in
/-- Witness for C1 at a complete concrete run (`n = t = i = 1`). -/
theorem C1_complete_outputs_witness :
    c1Keys.group_key = ((List.range' 1 (1 : Nat)).map (fun l =>
      ((mlookup [(1, [(2 : ZMod 5)])] l).getD []).getD 0 0)).sum ∧
    (∀ l ∈ List.range' 1 (1 : Nat),
      mlookup c1Keys.verification_shares l = some
        (((List.range' 1 (1 : Nat)).map (fun k =>
          ((List.range (1 : Nat)).map (fun j => ((l : ZMod 5) ^ j) •
            ((mlookup [(1, [(2 : ZMod 5)])] k).getD []).getD j 0)).sum)).sum)) ∧
    c1Keys.secret_share • testCurve.gen =
      (mlookup c1Keys.verification_shares 1).getD 0 :=
  C1_complete_outputs testCurve testCurveValid ⟨1, 1, 1⟩ (by decide)
    (fun ss ps => by rfl) 2 [(1, [2])] [] c1Keys (by decide) (by decide)
    (by decide) (by decide)

end C1Claim

section C4Claim

variable {F G : Type} [CommRing F] [AddCommGroup G] [Module F G]
variable [DecidableEq F] [DecidableEq G]

/-- Totalize an `Except` value with a default; the hypotheses of the lemmas
below guarantee the `ok` case, so the default never shows. -/
def exGet {α : Type} (d : α) : Except RunError α → α
  | .ok a => a
  | .error _ => d

/-- All the fallible accesses the blame fallback performs for participant `l`
succeed (guaranteed whenever the main loop ran to completion). -/
def blameDecOk (C : CurveOps F G) (params : MultisigParams)
    (bytes : Nat → Bytes) (comms : List (Nat × List G)) (l : Nat) : Prop :=
  (∃ v, decodeS C params.t l (bytes l) = .ok v) ∧
  (∃ v, decodeR C params.t l (bytes l) = .ok v) ∧
  (∃ v, R_bytes C params.t (bytes l) = .ok v) ∧
  (∃ v, Am_bytes C params.t (bytes l) = .ok v) ∧
  (∃ v, rindex ((mlookup comms l).getD []) 0 = .ok v)

/-- Participant `l`'s individual Schnorr identity `s_l·G = R_l + c_l·A_{l,0}`
fails, stated on the totalized decoded values. -/
def schnorrFails (C : CurveOps F G) (params : MultisigParams)
    (context : Bytes) (bytes : Nat → Bytes) (comms : List (Nat × List G))
    (l : Nat) : Prop :=
  exGet 0 (decodeS C params.t l (bytes l)) • C.gen ≠
    exGet 0 (decodeR C params.t l (bytes l)) +
      challenge C l context (exGet [] (R_bytes C params.t (bytes l)))
        (exGet [] (Am_bytes C params.t (bytes l))) •
        exGet 0 (rindex ((mlookup comms l).getD []) 0)

lemma blame_r1_spec (C : CurveOps F G) (params : MultisigParams)
    (context : Bytes) (bytes : Nat → Bytes) (comms : List (Nat × List G)) :
    ∀ (ls : List Nat), ls.Pairwise (· < ·) →
      (∀ l ∈ ls, l ≠ params.i → blameDecOk C params bytes comms l) →
      ((∀ l ∈ ls, l ≠ params.i →
          ¬ schnorrFails C params context bytes comms l) ∧
        blame_r1 C params context bytes comms ls = .ok ()) ∨
      (∃ l0, l0 ∈ ls ∧ l0 ≠ params.i ∧
        schnorrFails C params context bytes comms l0 ∧
        (∀ l ∈ ls, l ≠ params.i →
          schnorrFails C params context bytes comms l → l0 ≤ l) ∧
        blame_r1 C params context bytes comms ls =
          .error (RunError.err (FrostError.InvalidProofOfKnowledge l0))) := by
  intro ls
  induction ls with
  | nil =>
    intro _ _
    left
    exact ⟨fun l hl => absurd hl (List.not_mem_nil l), rfl⟩
  | cons a ls ih =>
    intro hsort hdec
    have hsort' := List.pairwise_cons.mp hsort
    by_cases hai : a = params.i
    · have hb : blame_r1 C params context bytes comms (a :: ls) =
          blame_r1 C params context bytes comms ls := by
        conv_lhs => unfold blame_r1
        rw [if_pos hai]
      rcases ih hsort'.2 (fun l hl hli => hdec l (List.mem_cons_of_mem _ hl) hli)
        with ⟨hall, hok⟩ | ⟨l0, hl0, hl0i, hf, hmin, herr⟩
      · left
        refine ⟨?_, by rw [hb]; exact hok⟩
        intro l hl hli
        rcases List.mem_cons.mp hl with heq | hm
        · exact absurd (by rw [heq]; exact hai) hli
        · exact hall l hm hli
      · right
        refine ⟨l0, List.mem_cons_of_mem _ hl0, hl0i, hf, ?_,
          by rw [hb]; exact herr⟩
        intro l hl hli hfl
        rcases List.mem_cons.mp hl with heq | hm
        · exact absurd (by rw [heq]; exact hai) hli
        · exact hmin l hm hli hfl
    · obtain ⟨⟨sv, hsv⟩, ⟨Rv, hRv⟩, ⟨rbv, hrbv⟩, ⟨amv, hamv⟩, ⟨A0v, hA0⟩⟩ :=
        hdec a (List.mem_cons_self _ _) hai
      have hbody : blame_r1 C params context bytes comms (a :: ls) =
          (if sv • C.gen ≠ Rv + challenge C a context rbv amv • A0v then
            .error (RunError.err (FrostError.InvalidProofOfKnowledge a))
          else blame_r1 C params context bytes comms ls) := by
        conv_lhs => unfold blame_r1
        rw [if_neg hai]
        rw [hsv, except_bind_ok, hRv, except_bind_ok, hrbv, except_bind_ok,
          hamv, except_bind_ok, hA0, except_bind_ok]
      have hfa_iff : schnorrFails C params context bytes comms a ↔
          sv • C.gen ≠ Rv + challenge C a context rbv amv • A0v := by
        unfold schnorrFails
        rw [hsv, hRv, hrbv, hamv, hA0]
        exact Iff.rfl
      by_cases hfa : schnorrFails C params context bytes comms a
      · right
        refine ⟨a, List.mem_cons_self _ _, hai, hfa, ?_, ?_⟩
        · intro l hl _ _
          rcases List.mem_cons.mp hl with heq | hm
          · rw [heq]
          · exact le_of_lt (hsort'.1 l hm)
        · rw [hbody, if_pos (hfa_iff.mp hfa)]
      · have hnot : ¬ (sv • C.gen ≠ Rv + challenge C a context rbv amv • A0v) :=
          fun hx => hfa (hfa_iff.mpr hx)
        rcases ih hsort'.2
          (fun l hl hli => hdec l (List.mem_cons_of_mem _ hl) hli)
          with ⟨hall, hok⟩ | ⟨l0, hl0, hl0i, hf, hmin, herr⟩
        · left
          refine ⟨?_, by rw [hbody, if_neg hnot]; exact hok⟩
          intro l hl hli
          rcases List.mem_cons.mp hl with heq | hm
          · rw [heq]; exact hfa
          · exact hall l hm hli
        · right
          refine ⟨l0, List.mem_cons_of_mem _ hl0, hl0i, hf, ?_,
            by rw [hbody, if_neg hnot]; exact herr⟩
          intro l hl hli hfl
          rcases List.mem_cons.mp hl with heq | hm
          · exact absurd (by rw [← heq]; exact hfl) hfa
          · exact hmin l hm hli hfl

lemma verify_r1_fold_ok_inv (C : CurveOps F G) (rng : Nat → F)
    (params : MultisigParams) (context : Bytes) (bytes : Nat → Bytes) :
    ∀ (ls : List Nat) (acc acc' : R1Acc F G),
      verify_r1_fold C rng params context bytes ls acc = .ok acc' →
      (∃ pairs : List (Nat × List G),
        acc'.comms = acc.comms ++ pairs ∧
        (∀ l ∈ ls, ∃ these,
          parseCommitments C params.t l (bytes l) = .ok these ∧
          mlookup pairs l = some these)) ∧
      (∀ l ∈ ls, l ≠ params.i →
        (∃ v, decodeS C params.t l (bytes l) = .ok v) ∧
        (∃ v, decodeR C params.t l (bytes l) = .ok v) ∧
        (∃ v, R_bytes C params.t (bytes l) = .ok v) ∧
        (∃ v, Am_bytes C params.t (bytes l) = .ok v) ∧
        (∃ these, parseCommitments C params.t l (bytes l) = .ok these ∧
          ∃ v, rindex these 0 = .ok v)) := by
  intro ls
  induction ls with
  | nil =>
    intro acc acc' h
    have hacc : acc = acc' := Except.ok.inj h
    subst hacc
    refine ⟨⟨[], (List.append_nil _).symm, ?_⟩, ?_⟩
    · intro l hl; cases hl
    · intro l hl; cases hl
  | cons l0 ls ih =>
    intro acc acc' h
    unfold verify_r1_fold at h
    cases hp : parseCommitments C params.t l0 (bytes l0) with
    | error e => rw [hp, except_bind_error] at h; cases h
    | ok these =>
    rw [hp, except_bind_ok] at h
    dsimp only at h
    by_cases hl0 : l0 = params.i
    · rw [if_pos hl0] at h
      obtain ⟨⟨pairs, hcomms, hlook⟩, hdecs⟩ := ih _ _ h
      constructor
      · refine ⟨(l0, these) :: pairs, ?_, ?_⟩
        · rw [hcomms, List.append_assoc]
          rfl
        · intro l hl
          by_cases hll : l0 = l
          · refine ⟨these, by rw [← hll]; exact hp, ?_⟩
            rw [← hll]
            exact mlookup_head_eq (l0, these) pairs
          · rcases List.mem_cons.mp hl with heq | hm
            · exact absurd heq.symm hll
            · obtain ⟨th2, hp2, hm2⟩ := hlook l hm
              exact ⟨th2, hp2, by rw [mlookup_head_ne _ _ _ hll]; exact hm2⟩
      · intro l hl hli
        rcases List.mem_cons.mp hl with heq | hm
        · exact absurd (heq.trans hl0) hli
        · exact hdecs l hm hli
    · rw [if_neg hl0] at h
      cases hR : decodeR C params.t l0 (bytes l0) with
      | error e => rw [hR, except_bind_error] at h; cases h
      | ok Rv =>
      rw [hR, except_bind_ok] at h
      cases hs : decodeS C params.t l0 (bytes l0) with
      | error e => rw [hs, except_bind_error] at h; cases h
      | ok sv =>
      rw [hs, except_bind_ok] at h
      cases hrb : R_bytes C params.t (bytes l0) with
      | error e => rw [hrb, except_bind_error] at h; cases h
      | ok rbv =>
      rw [hrb, except_bind_ok] at h
      cases ham : Am_bytes C params.t (bytes l0) with
      | error e => rw [ham, except_bind_error] at h; cases h
      | ok amv =>
      rw [ham, except_bind_ok] at h
      cases hA0 : rindex these 0 with
      | error e => rw [hA0, except_bind_error] at h; cases h
      | ok A0v =>
      rw [hA0, except_bind_ok] at h
      obtain ⟨⟨pairs, hcomms, hlook⟩, hdecs⟩ := ih _ _ h
      constructor
      · refine ⟨(l0, these) :: pairs, ?_, ?_⟩
        · rw [hcomms, List.append_assoc]
          rfl
        · intro l hl
          by_cases hll : l0 = l
          · refine ⟨these, by rw [← hll]; exact hp, ?_⟩
            rw [← hll]
            exact mlookup_head_eq (l0, these) pairs
          · rcases List.mem_cons.mp hl with heq | hm
            · exact absurd heq.symm hll
            · obtain ⟨th2, hp2, hm2⟩ := hlook l hm
              exact ⟨th2, hp2, by rw [mlookup_head_ne _ _ _ hll]; exact hm2⟩
      · intro l hl hli
        rcases List.mem_cons.mp hl with heq | hm
        · subst heq
          exact ⟨⟨sv, hs⟩, ⟨Rv, hR⟩, ⟨rbv, hrb⟩, ⟨amv, ham⟩,
            these, hp, A0v, hA0⟩
        · exact hdecs l hm hli

/-- Claim C4: when the batched multiexp test of round-1 verification fails,
the verifier re-checks each `l ≠ i` individually in increasing index order and
returns exactly one `InvalidProofOfKnowledge(l₀)` for the least `l` whose
individual Schnorr identity fails; if every individual check passes despite
the batch failure, it returns `InternalError("batch validation is broken")`. -/
theorem C4_batch_failure_blame (C : CurveOps F G) (rng : Nat → F)
    (params : MultisigParams) (context : Bytes) (our_commitments : Bytes)
    (serialized : List (Nat × Bytes)) (m : List (Nat × Bytes))
    (acc : R1Acc F G)
    (hvm : validate_map serialized (List.range' 1 params.n)
      (params.i, our_commitments) = .ok m)
    (hfold : verify_r1_fold C rng params context
      (fun l => (mlookup m l).getD []) (List.range' 1 params.n)
      { comms := [], first := true, ridx := 0, scalars := [], points := [] } =
      .ok acc)
    (hbatch : C.multiexp acc.scalars acc.points ≠ 0) :
    (∃ l0, l0 ∈ List.range' 1 params.n ∧ l0 ≠ params.i ∧
      schnorrFails C params context (fun l => (mlookup m l).getD [])
        acc.comms l0 ∧
      (∀ l ∈ List.range' 1 params.n, l ≠ params.i →
        schnorrFails C params context (fun l => (mlookup m l).getD [])
          acc.comms l → l0 ≤ l) ∧
      verify_r1 C rng params context our_commitments serialized =
        .error (RunError.err (FrostError.InvalidProofOfKnowledge l0))) ∨
    ((∀ l ∈ List.range' 1 params.n, l ≠ params.i →
        ¬ schnorrFails C params context (fun l => (mlookup m l).getD [])
          acc.comms l) ∧
      verify_r1 C rng params context our_commitments serialized =
        .error (RunError.err
          (FrostError.InternalError ("batch validation is broken")))) := by
  have hdecall : ∀ l ∈ List.range' 1 params.n, l ≠ params.i →
      blameDecOk C params (fun l => (mlookup m l).getD []) acc.comms l := by
    obtain ⟨⟨pairs, hcomms, hlook⟩, hdecs⟩ :=
      verify_r1_fold_ok_inv C rng params context
        (fun l => (mlookup m l).getD []) (List.range' 1 params.n) _ _ hfold
    intro l hl hli
    obtain ⟨h1, h2, h3, h4, these, hth, v, hv⟩ := hdecs l hl hli
    obtain ⟨th2, hp2, hlk⟩ := hlook l hl
    have hth2 : th2 = these := by
      rw [hth] at hp2
      exact (Except.ok.inj hp2).symm
    refine ⟨h1, h2, h3, h4, ?_⟩
    have hacc : acc.comms = pairs := by
      rw [hcomms]
      rfl
    rw [hacc, hlk]
    exact ⟨v, by rw [hth2]; exact hv⟩
  rcases blame_r1_spec C params context (fun l => (mlookup m l).getD [])
      acc.comms (List.range' 1 params.n)
      (List.pairwise_lt_range' 1 params.n) hdecall
    with ⟨hall, hok⟩ | ⟨l0, hl0, hl0i, hf, hmin, herr⟩
  · right
    refine ⟨hall, ?_⟩
    unfold verify_r1
    rw [hvm]
    dsimp only
    rw [except_bind_ok, hfold, except_bind_ok, if_pos hbatch, hok]
  · left
    refine ⟨l0, hl0, hl0i, hf, hmin, ?_⟩
    unfold verify_r1
    rw [hvm]
    dsimp only
    rw [except_bind_ok, hfold, except_bind_ok, if_pos hbatch, herr]

/-- The validated round-1 map and loop accumulator of the C4 witness run
(`n = 2, t = 1, i = 1`; participant 2's message carries an invalid `s`). -/
def c4m : List (Nat × Bytes) := [(1, [2, 3, 0]), (2, [3, 1, 0])]

def c4acc : R1Acc (ZMod 5) (ZMod 5) :=
  { comms := [(1, [2]), (2, [3])], first := false, ridx := 0,
    scalars := [1, 0, 1], points := [1, 1, 3] }

set_option maxHeartbeats 1600000 in
/-- Witness for C4: participant 2's proof of knowledge fails the batch and is
blamed individually. -/
theorem C4_batch_failure_blame_witness :
    (∃ l0, l0 ∈ List.range' 1 (MultisigParams.mk 2 1 1).n ∧
      l0 ≠ (MultisigParams.mk 2 1 1).i ∧
      schnorrFails testCurve ⟨2, 1, 1⟩ [] (fun l => (mlookup c4m l).getD [])
        c4acc.comms l0 ∧
      (∀ l ∈ List.range' 1 (MultisigParams.mk 2 1 1).n,
        l ≠ (MultisigParams.mk 2 1 1).i →
        schnorrFails testCurve ⟨2, 1, 1⟩ [] (fun l => (mlookup c4m l).getD [])
          c4acc.comms l → l0 ≤ l) ∧
      verify_r1 testCurve trng ⟨2, 1, 1⟩ [] [2, 3, 0] [(2, [3, 1, 0])] =
        .error (RunError.err (FrostError.InvalidProofOfKnowledge l0))) ∨
    ((∀ l ∈ List.range' 1 (MultisigParams.mk 2 1 1).n,
        l ≠ (MultisigParams.mk 2 1 1).i →
        ¬ schnorrFails testCurve ⟨2, 1, 1⟩ []
          (fun l => (mlookup c4m l).getD []) c4acc.comms l) ∧
      verify_r1 testCurve trng ⟨2, 1, 1⟩ [] [2, 3, 0] [(2, [3, 1, 0])] =
        .error (RunError.err
          (FrostError.InternalError ("batch validation is broken")))) :=
  C4_batch_failure_blame testCurve trng ⟨2, 1, 1⟩ [] [2, 3, 0]
    [(2, [3, 1, 0])] c4m c4acc (by decide) (by decide) (by decide)

end C4Claim

end Serai
